import Mathlib

/-!
Shallow embedding of `src/log.c` (the TidesDB line-oriented log writer).

The file is modelled at the byte level: the backing file's content is a
`List Char`, `fgets` is modelled by `takeLine` (reads at most
`BUFFER_SIZE - 1` characters, stopping after a newline), and each C entry
point (`log_init`, `log_write`, `log_count_lines`, `log_close`) becomes a
pure Lean function.  Environment interactions that the C code performs
(malloc, fopen, pthread calls, the wall clock) are passed in explicitly as
environment records, so every branch of the C code is reachable in the
model.  The C functions all return `int` (0 on success, -1 on failure);
where the spec distinguishes failure kinds, the model additionally records
which return site fired (`InitErr`), since the branches are distinct in the
source even though the returned value is not.
-/

set_option maxRecDepth 100000

namespace TidesLog

/-- Modelled from the spec: `BUFFER_SIZE` is defined in the header `log.h`,
which is not among the repository sources; the spec only states that the
format buffer and the line-read buffer are bounded and (per the source,
`char buffer[BUFFER_SIZE]` / `char line[BUFFER_SIZE]`) share this size.
We fix a representative value; every theorem whose truth depends on the
bound takes the relevant length bound as an explicit hypothesis. -/
def BUFFER_SIZE : Nat := 64

/-- Modelled from the spec: `MAX_FILENAME_LENGTH` is defined in the missing
header `log.h`; the spec only states a fixed maximum path length, enforced
strictly (`strlen(filename) >= MAX_FILENAME_LENGTH` is rejected). -/
def MAX_FILENAME_LENGTH : Nat := 256

/-- The literal path passed to `fopen` for the temporary file, at
`log.c:73` (init truncation) and `log.c:175` (write truncation). -/
def tmpLogPath : List Char := "tmp.log".toList

/-- One `fgets(buf, k+1, f)` read: consume at most `k` characters from the
stream, stopping after (and including) a newline.  Mirrors the C library
semantics used at `log.c:88`, `log.c:185` and `log.c:227` where
`fgets(line, sizeof(line), file)` reads at most `BUFFER_SIZE - 1`
characters per call.  Returns the characters read and the rest of the
stream. -/
def takeLine : Nat → List Char → List Char × List Char
  | 0, s => ([], s)
  | _ + 1, [] => ([], [])
  | k + 1, c :: s =>
    if c = '\n' then ([c], s)
    else
      let p := takeLine k s
      (c :: p.1, p.2)

/-- The sequence of chunks an `fgets` loop over a `char line[BUFFER_SIZE]`
buffer yields on the given stream, with explicit fuel (each successful
`fgets` consumes at least one character, so `fuel = length` suffices). -/
def fgetsChunksAux : Nat → List Char → List (List Char)
  | 0, _ => []
  | fuel + 1, s =>
    if s.isEmpty then []
    else
      let p := takeLine (BUFFER_SIZE - 1) s
      p.1 :: fgetsChunksAux fuel p.2

/-- All chunks an `fgets(line, BUFFER_SIZE, f)` loop reads from a rewound
file with content `s`. -/
def fgetsChunks (s : List Char) : List (List Char) :=
  fgetsChunksAux s.length s

/-- The copy loop shared by both truncation passes (`log.c:86`-`log.c:93`
and `log.c:183`-`log.c:190`): iterate over the chunks with counter `i`
starting at 0, appending chunk `i` to the temporary file's content exactly
when `i >= skip`. -/
def copyTail (skip : Int) : Int → List (List Char) → List Char
  | _, [] => []
  | i, c :: cs => (if skip ≤ i then c else []) ++ copyTail skip (i + 1) cs

/-- In-memory state of a `log_t` (from the struct used by `log.c`; declared
in the missing `log.h`, fields inferred from every use in `log.c`), paired
with the content of the backing file on disk, which the handle exclusively
owns per the spec. -/
structure LogT where
  filename : List Char
  hasFile : Bool
  truncate_at : Int
  cached_lines : Int
  lockHeld : Bool
  file : List Char
deriving Repr, DecidableEq

/-- C-string helper `_if_end_with_newline` (`log.c:253`-`log.c:261`). -/
def if_end_with_newline (s : List Char) : Bool :=
  !s.isEmpty && s.getLast? == some '\n'

/-- C-string helper `_remove_newline_from_end` (`log.c:263`-`log.c:270`):
overwriting the final character with NUL truncates the C string by one. -/
def remove_newline_from_end (s : List Char) : List Char :=
  if !s.isEmpty && s.getLast? == some '\n' then s.dropLast else s

/-- The line `fprintf(log->file, "[%s] %s\n", time_str, buffer)` appends
(`log.c:164`). -/
def recordLine (ts msg : List Char) : List Char :=
  ('[' :: ts) ++ [']', ' '] ++ msg ++ ['\n']

/-- Environment of one `log_write` call: the timestamp string `strftime`
produces for this call, and whether the two fallible `fopen` calls of the
truncation pass succeed. -/
structure WriteEnv where
  ts : List Char
  tmpOpenOk : Bool
  reopenOk : Bool
deriving Repr, DecidableEq

/-- Result of one `log_write` call on a non-null handle.  `ret = none`
models the call blocking forever in `pthread_mutex_lock` (the mutex is
already held); otherwise `ret = some r` is the returned `int`.  `format`
is the caller's format buffer after the call (the C code mutates it in
place).  `appended` records the line passed to `fprintf`, if reached;
`tmpFopenPath` records the path passed to `fopen` for the temporary file,
if that call was reached. -/
structure WriteRet where
  ret : Option Int
  log : LogT
  format : List Char
  appended : Option (List Char)
  tmpFopenPath : Option (List Char)
deriving Repr, DecidableEq

/-- `log_write` (`log.c:134`-`log.c:216`), for a non-null handle (the
null-handle check at `log.c:136` lives in `log_write_entry`).  The
variadic formatting is specialised to calls whose format string contains
no conversion directives, as in the claims, so `vsnprintf` copies the
(newline-stripped) format into the bounded buffer, truncating it to
`BUFFER_SIZE - 1` characters. -/
def log_write (env : WriteEnv) (log : LogT) (format : List Char) : WriteRet :=
  if log.hasFile = false then ⟨some (-1), log, format, none, none⟩
  else if log.lockHeld then ⟨none, log, format, none, none⟩
  else
    let fmt := if if_end_with_newline format then remove_newline_from_end format else format
    let buffer := fmt.take (BUFFER_SIZE - 1)
    let line := recordLine env.ts buffer
    let file1 := log.file ++ line
    let cached1 : Int := if log.cached_lines = -1 then log.cached_lines else log.cached_lines + 1
    if log.truncate_at ≠ -1 ∧ cached1 > log.truncate_at then
      if env.tmpOpenOk = false then
        ⟨some (-1), { log with file := file1, cached_lines := cached1 }, fmt, some line,
          some tmpLogPath⟩
      else
        let file2 := copyTail (cached1 - log.truncate_at) 0 (fgetsChunks file1)
        if env.reopenOk = false then
          ⟨some (-1), { log with file := file2, cached_lines := cached1, hasFile := false },
            fmt, some line, some tmpLogPath⟩
        else
          ⟨some 0, { log with file := file2, cached_lines := log.truncate_at }, fmt, some line,
            some tmpLogPath⟩
    else
      ⟨some 0, { log with file := file1, cached_lines := cached1 }, fmt, some line, none⟩

/-- `log_count_lines` (`log.c:218`-`log.c:233`), on a non-null handle: the
function only reads, so the state is returned unchanged. -/
def log_count_lines (log : LogT) : Int × LogT :=
  if log.hasFile = false then (-1, log)
  else (((fgetsChunks log.file).length : Int), log)

/-- `log_close` (`log.c:235`-`log.c:251`) return value on a non-null
handle. -/
def log_close (log : LogT) : Int :=
  if log.hasFile = false then -1 else 0

/-- Environment of one `log_init` call: success of `malloc`, of the main
`fopen`, of `pthread_mutex_init` and `pthread_mutex_lock`, the existing
content of the file at the target path (empty if absent), and success of
the two fallible `fopen` calls of the startup truncation pass. -/
structure InitEnv where
  mallocOk : Bool
  fopenOk : Bool
  mutexInitOk : Bool
  lockOk : Bool
  existing : List Char
  tmpOpenOk : Bool
  reopenOk : Bool
deriving Repr, DecidableEq

/-- Which failure branch of `log_init` fired.  The C function returns -1
for every failure; the constructors name the distinct return sites,
matching the spec's error taxonomy (`AllocationFailure`, `InvalidPath`,
`IOError`, `LockInitError`; `lockError` is the `pthread_mutex_lock`
failure branch at `log.c:59`). -/
inductive InitErr where
  | allocationFailure
  | invalidPath
  | ioError
  | lockInitError
  | lockError
deriving Repr, DecidableEq

/-- Result of `log_init` (`log.c:21`-`log.c:132`): the returned `int`, the
value stored through the out-parameter `*log`, the failure branch (if
any), whether the `fopen` on the target path was reached and succeeded
(i.e. whether the backing file was opened/created), and the path passed to
`fopen` for the temporary file if the startup truncation reached it. -/
structure InitRet where
  ret : Int
  out : Option LogT
  err : Option InitErr
  fileOpened : Bool
  tmpFopenPath : Option (List Char)
deriving Repr, DecidableEq

/-- `log_init` (`log.c:21`-`log.c:132`). -/
def log_init (env : InitEnv) (filename : List Char) (truncate_at : Int) : InitRet :=
  if env.mallocOk = false then ⟨-1, none, some .allocationFailure, false, none⟩
  else if MAX_FILENAME_LENGTH ≤ filename.length then ⟨-1, none, some .invalidPath, false, none⟩
  else if env.fopenOk = false then ⟨-1, none, some .ioError, false, none⟩
  else if env.mutexInitOk = false then ⟨-1, none, some .lockInitError, true, none⟩
  else if truncate_at ≠ -1 then
    if env.lockOk = false then ⟨-1, none, some .lockError, true, none⟩
    else
      let lines : Int := ((fgetsChunks env.existing).length : Int)
      if truncate_at < lines then
        if env.tmpOpenOk = false then ⟨-1, none, some .ioError, true, some tmpLogPath⟩
        else
          let newContent := copyTail (lines - truncate_at) 0 (fgetsChunks env.existing)
          if env.reopenOk = false then ⟨-1, none, some .ioError, true, some tmpLogPath⟩
          else
            ⟨0, some ⟨filename, true, truncate_at, truncate_at, false, newContent⟩, none, true,
              some tmpLogPath⟩
      else ⟨0, some ⟨filename, true, truncate_at, lines, false, env.existing⟩, none, true, none⟩
  else
    ⟨0, some ⟨filename, true, truncate_at, ((fgetsChunks env.existing).length : Int), false,
      env.existing⟩, none, true, none⟩

/-- Observable outcome of calling one of the C entry points on a possibly
null handle: the call returns an `int`, blocks forever on the mutex, or
runs into undefined behaviour (a null-pointer dereference). -/
inductive CEntry where
  | returns : Int → CEntry
  | blocks : CEntry
  | undefBehavior : CEntry
deriving Repr, DecidableEq

/-- `log_write` called through its public signature: `log.c:136` checks
the handle for null and returns -1 before anything else. -/
def log_write_entry (env : WriteEnv) (l : Option LogT) (format : List Char) : CEntry :=
  match l with
  | none => .returns (-1)
  | some lg =>
    match (log_write env lg format).ret with
    | some r => .returns r
    | none => .blocks

/-- `log_close` called through its public signature: `log.c:237` checks
the handle for null and returns -1. -/
def log_close_entry (l : Option LogT) : CEntry :=
  match l with
  | none => .returns (-1)
  | some lg => .returns (log_close lg)

/-- `log_count_lines` called through its public signature: `log.c:220`
dereferences `log->file` with no null check, so a null handle is undefined
behaviour. -/
def log_count_lines_entry (l : Option LogT) : CEntry :=
  match l with
  | none => .undefBehavior
  | some lg => .returns (log_count_lines lg).1

/-- A sequence of `log_write` calls, one `(timestamp, message)` pair per
call, each with a cooperating filesystem; returns the final state. -/
def runWrites : LogT → List (List Char × List Char) → LogT
  | lg, [] => lg
  | lg, p :: rest => runWrites (log_write ⟨p.1, true, true⟩ lg p.2).log rest

/-- A wellformed physical record: nonempty, ends in a newline, has no
interior newline, and fits a single `fgets` read
(length at most `BUFFER_SIZE - 1`). -/
def WfRec (r : List Char) : Prop :=
  r ≠ [] ∧ r.getLast? = some '\n' ∧ '\n' ∉ r.dropLast ∧ r.length ≤ BUFFER_SIZE - 1

instance (r : List Char) : Decidable (WfRec r) := by
  unfold WfRec; infer_instance

/-- A timestamp as produced by `strftime` with format
`"%Y-%m-%d %H:%M:%S"` into `char time_str[20]` (`log.c:153`-`log.c:154`):
exactly 19 characters, none of them a newline. -/
def tsOk (ts : List Char) : Prop :=
  ts.length = 19 ∧ '\n' ∉ ts

instance (ts : List Char) : Decidable (tsOk ts) := by
  unfold tsOk; infer_instance

/-- A message that is free of line breaks and short enough that its full
record (23 characters of prefix plus the trailing newline) fits a single
`fgets` read of the truncation and counting loops. -/
def msgOk (m : List Char) : Prop :=
  m.length ≤ BUFFER_SIZE - 24 ∧ '\n' ∉ m

instance (m : List Char) : Decidable (msgOk m) := by
  unfold msgOk; infer_instance

/-- Spec-side definition for C7, taken from the spec's words: the number
of newline-terminated records physically present in a file is the number
of newline characters it contains. -/
def specNewlineRecords (s : List Char) : Nat :=
  s.count '\n'

/-- Spec-side definition for C4, taken from the spec's words: the
directory part of a path — everything before the final separator, empty
for a bare (working-directory-relative) name. -/
def specDirname (p : List Char) : List Char :=
  ((p.reverse.dropWhile (fun c => c ≠ '/')).drop 1).reverse

/-- A record ending in exactly one line terminator: the last character is
a newline and no other character is. -/
def endsWithOneTerminator (r : List Char) : Prop :=
  r.getLast? = some '\n' ∧ '\n' ∉ r.dropLast

instance (r : List Char) : Decidable (endsWithOneTerminator r) := by
  unfold endsWithOneTerminator; infer_instance

/-- The format string after the newline-stripping step of `log_write`
(`log.c:144`-`log.c:148`). -/
def stripFormat (format : List Char) : List Char :=
  if if_end_with_newline format then remove_newline_from_end format else format

/-- Concrete timestamp used by witnesses and counterexamples (19
characters, the exact `strftime` shape). -/
def tsC : List Char := "2026-01-01 00:00:00".toList

/-- Concrete log path used by witnesses and counterexamples. -/
def fnC : List Char := "a.log".toList

/-- Fully cooperating initialisation environment over an absent file. -/
def envAllOkC : InitEnv := ⟨true, true, true, true, [], true, true⟩

/-- A message of `BUFFER_SIZE - 1` characters: the longest message that
fits the `vsnprintf` format buffer without truncation. -/
def msgLongC : List Char := List.replicate 63 'a'

/-- Two writes whose messages fit the format buffer, the first one maximal. -/
def pairsLongC : List (List Char × List Char) := [(tsC, msgLongC), (tsC, ['b'])]

/-- Two writes with one-character messages. -/
def pairsShortC : List (List Char × List Char) := [(tsC, ['x']), (tsC, ['y'])]

/-- A log state with bound 1 whose file holds one record, as produced by
initialising over a one-line file with `truncate_at = 1`. -/
def lgBound1C : LogT := ⟨fnC, true, 1, 1, false, "r\n".toList⟩

/-- A log state with truncation disabled and an untracked cache, matching
`log_init` with the unbounded sentinel over an absent file except for the
cache sentinel. -/
def lgPlainC : LogT := ⟨fnC, true, -1, -1, false, []⟩

/-- A log state whose path has a directory component. -/
def lgDirC : LogT := ⟨"d/x.log".toList, true, 0, 0, false, []⟩

/-- A log state over a file holding a single unterminated fragment. -/
def lgAbcC : LogT := ⟨fnC, true, -1, 0, false, "abc".toList⟩

/-- A log state over two records followed by an unterminated fragment. -/
def lgMixC : LogT := ⟨fnC, true, -1, 7, false, "a\nb\nxyz".toList⟩

/-- A path of exactly the maximum length. -/
def fnLongC : List Char := List.replicate MAX_FILENAME_LENGTH 'a'

/-- An initialisation environment over a two-line file in which the
reopen after the swap fails. -/
def envReopenFailC : InitEnv := ⟨true, true, true, true, "a\nb\n".toList, true, false⟩

theorem wfRec_concat (body : List Char) (h1 : '\n' ∉ body)
    (h2 : body.length + 1 ≤ BUFFER_SIZE - 1) : WfRec (body ++ ['\n']) := by
  refine ⟨by simp, by simp, by simpa using h1, by simpa using h2⟩

theorem wfRec_elim {r : List Char} (h : WfRec r) :
    ∃ body, r = body ++ ['\n'] ∧ '\n' ∉ body ∧ body.length + 1 ≤ BUFFER_SIZE - 1 := by
  obtain ⟨hne, hlast, hmid, hlen⟩ := h
  rcases List.eq_nil_or_concat r with h0 | ⟨L, b, h1⟩
  · exact absurd h0 hne
  · subst h1
    rw [List.concat_eq_append] at hlast hmid hlen ⊢
    have hb : b = '\n' := by simpa using hlast
    subst hb
    exact ⟨L, rfl, by simpa using hmid, by simpa using hlen⟩

theorem takeLine_body (k : Nat) (body rest : List Char)
    (hnn : '\n' ∉ body) (hlen : body.length + 1 ≤ k) :
    takeLine k (body ++ '\n' :: rest) = (body ++ ['\n'], rest) := by
  induction body generalizing k with
  | nil =>
    cases k with
    | zero => exact absurd hlen (by omega)
    | succ k' => simp [takeLine]
  | cons c b ih =>
    cases k with
    | zero => exact absurd hlen (by omega)
    | succ k' =>
      have hc : ¬(c = '\n') := fun h => hnn (by simp [h])
      have hb : '\n' ∉ b := fun h => hnn (by simp [h])
      have hlen' : b.length + 1 ≤ k' := by
        simp only [List.length_cons] at hlen; omega
      have ih' := ih k' hb hlen'
      simp [takeLine, hc, ih']

theorem takeLine_noNl (k : Nat) (t : List Char) (hnn : '\n' ∉ t) (hlen : t.length ≤ k) :
    takeLine k t = (t, []) := by
  induction t generalizing k with
  | nil => cases k <;> simp [takeLine]
  | cons c b ih =>
    cases k with
    | zero => exact absurd hlen (by simp)
    | succ k' =>
      have hc : ¬(c = '\n') := fun h => hnn (by simp [h])
      have hb : '\n' ∉ b := fun h => hnn (by simp [h])
      have hlen' : b.length ≤ k' := by
        simp only [List.length_cons] at hlen; omega
      have ih' := ih k' hb hlen'
      simp [takeLine, hc, ih']

theorem fgetsChunksAux_nil (fuel : Nat) : fgetsChunksAux fuel [] = [] := by
  cases fuel <;> simp [fgetsChunksAux]

theorem fgetsChunksAux_spec (recs : List (List Char)) (tail : List Char) (fuel : Nat)
    (hw : ∀ r ∈ recs, WfRec r) (ht1 : '\n' ∉ tail) (ht2 : tail.length ≤ BUFFER_SIZE - 1)
    (hf : (recs.flatten ++ tail).length ≤ fuel) :
    fgetsChunksAux fuel (recs.flatten ++ tail) = recs ++ (if tail = [] then [] else [tail]) := by
  induction recs generalizing fuel with
  | nil =>
    simp only [List.flatten_nil, List.nil_append] at hf ⊢
    by_cases h0 : tail = []
    · subst h0; simp [fgetsChunksAux_nil]
    · cases fuel with
      | zero =>
        exact absurd (List.length_eq_zero.1 (Nat.le_zero.1 hf)) h0
      | succ f =>
        simp only [fgetsChunksAux]
        rw [takeLine_noNl _ _ ht1 ht2]
        simp [h0, fgetsChunksAux_nil]
  | cons r rs ih =>
    obtain ⟨body, hr, hb1, hb2⟩ := wfRec_elim (hw r (List.mem_cons_self r rs))
    subst hr
    have hjoin : ((body ++ ['\n']) :: rs).flatten ++ tail
        = body ++ '\n' :: (rs.flatten ++ tail) := by
      simp
    rw [hjoin] at hf ⊢
    cases fuel with
    | zero =>
      exfalso; simp only [List.length_append, List.length_cons] at hf; omega
    | succ f =>
      simp only [fgetsChunksAux]
      rw [takeLine_body _ _ _ hb1 hb2]
      have hf' : (rs.flatten ++ tail).length ≤ f := by
        simp only [List.length_append, List.length_cons] at hf ⊢; omega
      rw [ih f (fun q hq => hw q (List.mem_cons_of_mem _ hq)) hf']
      simp

theorem fgetsChunks_flatten_tail (recs : List (List Char)) (tail : List Char)
    (hw : ∀ r ∈ recs, WfRec r) (ht1 : '\n' ∉ tail) (ht2 : tail.length ≤ BUFFER_SIZE - 1) :
    fgetsChunks (recs.flatten ++ tail) = recs ++ (if tail = [] then [] else [tail]) := by
  unfold fgetsChunks
  exact fgetsChunksAux_spec recs tail _ hw ht1 ht2 le_rfl

theorem fgetsChunks_flatten (recs : List (List Char)) (hw : ∀ r ∈ recs, WfRec r) :
    fgetsChunks recs.flatten = recs := by
  have := fgetsChunks_flatten_tail recs [] hw (by simp) (by simp)
  simpa using this

theorem copyTail_eq_drop (l : List (List Char)) (skip i : Int) :
    copyTail skip i l = (l.drop (skip - i).toNat).flatten := by
  induction l generalizing i with
  | nil => simp [copyTail]
  | cons c cs ih =>
    rw [copyTail]
    by_cases h : skip ≤ i
    · have h0 : (skip - i).toNat = 0 := by omega
      have h1 : (skip - (i + 1)).toNat = 0 := by omega
      simp [h, h0, ih, h1]
    · have h0 : (skip - i).toNat = (skip - (i + 1)).toNat + 1 := by omega
      simp [h, ih, h0]

theorem recordLine_wf (ts msg : List Char) (hts : tsOk ts) (hm : msgOk msg) :
    WfRec (recordLine ts msg) := by
  obtain ⟨hl, hn⟩ := hts
  obtain ⟨ml, mn⟩ := hm
  have hshape : recordLine ts msg = (('[' :: ts) ++ ([']', ' '] ++ msg)) ++ ['\n'] := by
    simp [recordLine]
  rw [hshape]
  apply wfRec_concat
  · intro h
    rcases List.mem_append.1 h with h | h
    · rcases List.mem_cons.1 h with h | h
      · exact absurd h (by decide)
      · exact hn h
    · rcases List.mem_append.1 h with h | h
      · rcases List.mem_cons.1 h with h | h
        · exact absurd h (by decide)
        · rcases List.mem_cons.1 h with h | h
          · exact absurd h (by decide)
          · simp at h
      · exact mn h
  · simp only [List.length_append, List.length_cons, List.length_nil, BUFFER_SIZE] at ml ⊢
    omega

theorem if_end_with_newline_false {m : List Char} (h : '\n' ∉ m) :
    if_end_with_newline m = false := by
  rcases List.eq_nil_or_concat m with rfl | ⟨L, b, h1⟩
  · rfl
  · subst h1
    rw [List.concat_eq_append] at h ⊢
    have hb : ¬(b = '\n') := fun hb => h (by simp [hb])
    simp [if_end_with_newline, hb]

theorem if_end_with_newline_true {m : List Char} (h : m.getLast? = some '\n') :
    if_end_with_newline m = true := by
  have hne : m ≠ [] := by rintro rfl; simp at h
  simp [if_end_with_newline, h, hne]

theorem remove_newline_from_end_eq {s : List Char} (h : s.getLast? = some '\n') :
    remove_newline_from_end s = s.dropLast := by
  have hne : s ≠ [] := by rintro rfl; simp at h
  simp [remove_newline_from_end, h, hne]

theorem stripFormat_no_newline {format : List Char} (h : '\n' ∉ format.dropLast) :
    '\n' ∉ stripFormat format := by
  unfold stripFormat
  by_cases he : if_end_with_newline format = true
  · rw [if_pos he]
    have hlast : format.getLast? = some '\n' := by
      simp [if_end_with_newline] at he
      exact he.2
    rw [remove_newline_from_end_eq hlast]
    exact h
  · rw [if_neg he]
    intro hm
    rcases List.eq_nil_or_concat format with rfl | ⟨L, b, h1⟩
    · simp at hm
    · subst h1
      rw [List.concat_eq_append] at hm h he
      rcases List.mem_append.1 hm with hm | hm
      · exact h (by simpa using hm)
      · have hb : b = '\n' := (by simpa using hm : '\n' = b).symm
        subst hb
        exact he (if_end_with_newline_true (by simp))

theorem log_write_ok (ts msg : List Char) (K : Nat) (recs : List (List Char))
    (fn : List Char)
    (hw : ∀ r ∈ recs, WfRec r) (hlenK : recs.length ≤ K)
    (hts : tsOk ts) (hm : msgOk msg) :
    log_write ⟨ts, true, true⟩ ⟨fn, true, (K : Int), (recs.length : Int), false, recs.flatten⟩ msg
      = ⟨some 0,
          ⟨fn, true, (K : Int),
            (((recs ++ [recordLine ts msg]).drop (recs.length + 1 - K)).length : Int),
            false,
            ((recs ++ [recordLine ts msg]).drop (recs.length + 1 - K)).flatten⟩,
          msg, some (recordLine ts msg),
          if recs.length + 1 ≤ K then none else some tmpLogPath⟩ := by
  obtain ⟨hl, hnts⟩ := hts
  obtain ⟨ml, mn⟩ := hm
  have hfmt : if_end_with_newline msg = false := if_end_with_newline_false mn
  have htake : msg.take (BUFFER_SIZE - 1) = msg := by
    apply List.take_of_length_le
    simp only [BUFFER_SIZE] at ml ⊢
    omega
  have hline : WfRec (recordLine ts msg) := recordLine_wf ts msg ⟨hl, hnts⟩ ⟨ml, mn⟩
  have hwall : ∀ r ∈ recs ++ [recordLine ts msg], WfRec r := by
    intro r hr
    rcases List.mem_append.1 hr with h | h
    · exact hw r h
    · rw [List.mem_singleton.1 h]; exact hline
  have hflat : recs.flatten ++ recordLine ts msg = (recs ++ [recordLine ts msg]).flatten := by
    simp
  have h1 : ¬((recs.length : Int) = -1) := by omega
  have h2 : ¬((K : Int) = -1) := by omega
  unfold log_write
  simp only [hfmt, Bool.false_eq_true, Bool.true_eq_false, if_false, htake, h1]
  by_cases hcase : recs.length + 1 ≤ K
  · have hcond : ¬((K : Int) ≠ -1 ∧ (recs.length : Int) + 1 > (K : Int)) := by
      intro hx
      have := hx.2
      omega
    have hdz : recs.length + 1 - K = 0 := by omega
    simp only [hdz, List.drop_zero, hcase, if_true]
    rw [if_neg hcond, hflat]
    have hc2 : (((recs ++ [recordLine ts msg]).length : Nat) : Int)
        = (recs.length : Int) + 1 := by
      simp only [List.length_append, List.length_cons, List.length_nil]
      push_cast
      ring
    rw [hc2]
  · have hcond : (K : Int) ≠ -1 ∧ (recs.length : Int) + 1 > (K : Int) := ⟨h2, by omega⟩
    have hlen2 : ((recs ++ [recordLine ts msg]).drop (recs.length + 1 - K)).length = K := by
      rw [List.length_drop]
      simp only [List.length_append, List.length_cons, List.length_nil]
      omega
    simp only [hcase, if_false]
    rw [hflat]
    rw [if_pos hcond]
    rw [fgetsChunks_flatten _ hwall]
    rw [copyTail_eq_drop]
    have harith : (((recs.length : Int) + 1 - (K : Int)) - 0).toNat = recs.length + 1 - K := by
      omega
    rw [harith, hlen2]

theorem runWrites_spec (K : Nat) (pairs : List (List Char × List Char))
    (recs : List (List Char)) (fn : List Char)
    (hw : ∀ r ∈ recs, WfRec r) (hlenK : recs.length ≤ K)
    (hp : ∀ p ∈ pairs, tsOk p.1 ∧ msgOk p.2) :
    runWrites ⟨fn, true, (K : Int), (recs.length : Int), false, recs.flatten⟩ pairs
      = ⟨fn, true, (K : Int),
          (((recs ++ pairs.map fun p => recordLine p.1 p.2).drop
              (recs.length + pairs.length - K)).length : Int),
          false,
          ((recs ++ pairs.map fun p => recordLine p.1 p.2).drop
              (recs.length + pairs.length - K)).flatten⟩ := by
  induction pairs generalizing recs with
  | nil =>
    rw [runWrites]
    have h0 : recs.length - K = 0 := by omega
    simp [h0]
  | cons p rest ih =>
    rw [runWrites]
    rw [log_write_ok p.1 p.2 K recs fn hw hlenK
      (hp p (List.mem_cons_self p rest)).1 (hp p (List.mem_cons_self p rest)).2]
    dsimp only
    have hwnew : ∀ r ∈ (recs ++ [recordLine p.1 p.2]).drop (recs.length + 1 - K), WfRec r := by
      intro r hr
      have hr' := List.drop_subset _ _ hr
      rcases List.mem_append.1 hr' with h | h
      · exact hw r h
      · rw [List.mem_singleton.1 h]
        exact recordLine_wf p.1 p.2 (hp p (List.mem_cons_self p rest)).1
          (hp p (List.mem_cons_self p rest)).2
    have hlnew : ((recs ++ [recordLine p.1 p.2]).drop (recs.length + 1 - K)).length ≤ K := by
      rw [List.length_drop]
      simp only [List.length_append, List.length_cons, List.length_nil]
      omega
    rw [ih _ hwnew hlnew (fun q hq => hp q (List.mem_cons_of_mem p hq))]
    have hd : recs.length + 1 - K ≤ (recs ++ [recordLine p.1 p.2]).length := by
      simp only [List.length_append, List.length_cons, List.length_nil]
      omega
    have hlist :
        ((recs ++ [recordLine p.1 p.2]).drop (recs.length + 1 - K)
            ++ rest.map fun q => recordLine q.1 q.2).drop
          (((recs ++ [recordLine p.1 p.2]).drop (recs.length + 1 - K)).length
            + rest.length - K)
        = ((recs ++ (p :: rest).map fun q => recordLine q.1 q.2).drop
            (recs.length + (p :: rest).length - K)) := by
      rw [← List.drop_append_of_le_length hd]
      rw [List.drop_drop]
      have hshape : (recs ++ [recordLine p.1 p.2]) ++ rest.map (fun q => recordLine q.1 q.2)
          = recs ++ (p :: rest).map fun q => recordLine q.1 q.2 := by
        simp
      rw [hshape]
      have harith : (recs.length + 1 - K) +
            (((recs ++ [recordLine p.1 p.2]).drop (recs.length + 1 - K)).length
              + rest.length - K)
          = recs.length + (p :: rest).length - K := by
        rw [List.length_drop]
        simp only [List.length_append, List.length_cons, List.length_nil]
        omega
      rw [harith]
    rw [hlist]

theorem log_init_empty (fn : List Char) (K : Nat) (hfn : fn.length < MAX_FILENAME_LENGTH) :
    log_init ⟨true, true, true, true, [], true, true⟩ fn (K : Int)
      = ⟨0, some ⟨fn, true, (K : Int), 0, false, []⟩, none, true, none⟩ := by
  unfold log_init
  have h1 : ¬(MAX_FILENAME_LENGTH ≤ fn.length) := by omega
  have h2 : ((K : Int) ≠ -1) := by omega
  have h3 : fgetsChunks ([] : List Char) = [] := by simp [fgetsChunks, fgetsChunksAux]
  have h4 : ¬((K : Int) < (((0 : Nat) : Int))) := by omega
  simp [h1, h2, h3, h4]

theorem recordLine_one_term (ts msg : List Char) (hts : '\n' ∉ ts) (hm : '\n' ∉ msg) :
    endsWithOneTerminator (recordLine ts msg) := by
  have hshape : recordLine ts msg = (('[' :: ts) ++ ([']', ' '] ++ msg)) ++ ['\n'] := by
    simp [recordLine]
  rw [hshape]
  refine ⟨List.getLast?_concat _, ?_⟩
  rw [List.dropLast_concat]
  intro h
  rcases List.mem_append.1 h with h | h
  · rcases List.mem_cons.1 h with h | h
    · exact absurd h (by decide)
    · exact hts h
  · rcases List.mem_append.1 h with h | h
    · rcases List.mem_cons.1 h with h | h
      · exact absurd h (by decide)
      · rcases List.mem_cons.1 h with h | h
        · exact absurd h (by decide)
        · simp at h
    · exact hm h

theorem specNewlineRecords_flatten (recs : List (List Char)) (tail : List Char)
    (hw : ∀ r ∈ recs, WfRec r) (ht1 : '\n' ∉ tail) :
    specNewlineRecords (recs.flatten ++ tail) = recs.length := by
  induction recs with
  | nil =>
    simp only [List.flatten_nil, List.nil_append, List.length_nil, specNewlineRecords]
    exact List.count_eq_zero.2 ht1
  | cons r rs ih =>
    obtain ⟨body, hr, hb, _⟩ := wfRec_elim (hw r (List.mem_cons_self r rs))
    subst hr
    have ih' := ih (fun q hq => hw q (List.mem_cons_of_mem _ hq))
    have hcb : body.count '\n' = 0 := List.count_eq_zero.2 hb
    simp only [specNewlineRecords, List.count_append] at ih' ⊢
    simp only [List.flatten_cons, List.count_append, hcb, List.length_cons]
    have hone : ['\n'].count '\n' = 1 := by decide
    omega

theorem log_write_ret_isSome (env : WriteEnv) (lg : LogT) (format : List Char)
    (h : lg.lockHeld = false) : ((log_write env lg format).ret).isSome = true := by
  simp only [log_write, h, Bool.false_eq_true, if_false]
  split_ifs <;> rfl

/-- C1 (amended): starting from an empty log initialised with a finite
bound `K`, for every sequence of `N > K` writes whose messages are free of
line breaks and short enough that the full record — the 22-character
timestamp prefix, the message and the terminator — fits a single `fgets`
read (message length at most `BUFFER_SIZE - 24`), after the sequence the
file contains exactly `K` physical lines, and they are the records of the
last `K` writes in original chronological order. -/
theorem c1_last_K_lines (K : Nat) (fn : List Char)
    (pairs : List (List Char × List Char))
    (hfn : fn.length < MAX_FILENAME_LENGTH)
    (hp : ∀ p ∈ pairs, tsOk p.1 ∧ msgOk p.2)
    (hN : K < pairs.length) :
    ∃ st0 : LogT,
      (log_init ⟨true, true, true, true, [], true, true⟩ fn (K : Int)).out = some st0 ∧
      fgetsChunks (runWrites st0 pairs).file
        = (pairs.map fun p => recordLine p.1 p.2).drop (pairs.length - K) ∧
      (fgetsChunks (runWrites st0 pairs).file).length = K := by
  refine ⟨⟨fn, true, (K : Int), 0, false, []⟩, ?_, ?_, ?_⟩
  · rw [log_init_empty fn K hfn]
  all_goals {
    have hrun := runWrites_spec K pairs [] fn (by simp) (by simp) hp
    simp only [List.length_nil, Nat.cast_zero, List.flatten_nil, List.nil_append,
      Nat.zero_add] at hrun
    rw [hrun]
    have hwmap : ∀ r ∈ (pairs.map fun p => recordLine p.1 p.2).drop (pairs.length - K),
        WfRec r := by
      intro r hr
      obtain ⟨p, hpmem, hrp⟩ := List.mem_map.1 (List.drop_subset _ _ hr)
      rw [← hrp]
      exact recordLine_wf p.1 p.2 (hp p hpmem).1 (hp p hpmem).2
    first
    | exact fgetsChunks_flatten _ hwmap
    | (rw [fgetsChunks_flatten _ hwmap, List.length_drop, List.length_map]; omega)
  }

/-- C1 (counterexample): with bound `K = 1`, two writes whose messages fit
the `vsnprintf` format buffer — the first of length `BUFFER_SIZE - 1`, the
longest that fits, the second one character — leave the file with 2
physical lines, not 1, and the file's content is not the record of the
last write: the first record exceeds one `fgets` read, so the truncation
pass undercounts the physical lines and keeps a fragment of the first
record.  This refutes the claim as stated, whose only shortness hypothesis
is that each message fits the format buffer. -/
theorem c1_counterexample :
    (∀ p ∈ pairsLongC, '\n' ∉ p.2 ∧ p.2.length ≤ BUFFER_SIZE - 1) ∧
    (log_init envAllOkC fnC 1).out = some ⟨fnC, true, 1, 0, false, []⟩ ∧
    (fgetsChunks (runWrites ⟨fnC, true, 1, 0, false, []⟩ pairsLongC).file).length = 2 ∧
    (runWrites ⟨fnC, true, 1, 0, false, []⟩ pairsLongC).file ≠ recordLine tsC ['b'] := by
  decide

/-- C1 witness: the amended statement at `K = 1` and two one-character
writes. -/
theorem c1_last_K_lines_witness :
    (fnC.length < MAX_FILENAME_LENGTH) ∧
    (∀ p ∈ pairsShortC, tsOk p.1 ∧ msgOk p.2) ∧
    (1 < pairsShortC.length) ∧
    (∃ st0 : LogT,
      (log_init ⟨true, true, true, true, [], true, true⟩ fnC ((1 : Nat) : Int)).out
        = some st0 ∧
      fgetsChunks (runWrites st0 pairsShortC).file
        = (pairsShortC.map fun p => recordLine p.1 p.2).drop (pairsShortC.length - 1) ∧
      (fgetsChunks (runWrites st0 pairsShortC).file).length = 1) :=
  ⟨by decide, by decide, by decide,
    c1_last_K_lines 1 fnC pairsShortC (by decide) (by decide) (by decide)⟩

/-- C2 (amended): with a finite bound, after every `log_write` that
returns success and for every handle produced by a successful `log_init`,
the cached line count does not exceed the bound.  (On the error paths of a
failed truncation inside `log_write` the count is left above the bound.) -/
theorem c2_success_within_bound :
    (∀ (env : WriteEnv) (lg : LogT) (format : List Char),
        lg.truncate_at ≠ -1 →
        (log_write env lg format).ret = some 0 →
        (log_write env lg format).log.cached_lines
          ≤ (log_write env lg format).log.truncate_at) ∧
    (∀ (env : InitEnv) (fn : List Char) (t : Int) (lg : LogT),
        t ≠ -1 →
        (log_init env fn t).out = some lg →
        lg.cached_lines ≤ lg.truncate_at) := by
  constructor
  · intro env lg format ht hret
    simp only [log_write] at hret ⊢
    split_ifs at hret ⊢ <;> simp_all
  · intro env fn t lg ht hout
    simp only [log_init] at hout
    split_ifs at hout
    all_goals simp only [Option.some.injEq, reduceCtorEq] at hout
    all_goals subst hout
    all_goals dsimp only
    all_goals omega

/-- C2 (counterexample): a `log_write` that triggers truncation but fails
to open the temporary file returns -1 and leaves `cached_lines = 2` above
`truncate_at = 1` — so with the claim's "whether it returns success or an
error" reading, the invariant fails after this operation returns. -/
theorem c2_counterexample :
    (log_write ⟨tsC, false, true⟩ lgBound1C ['b']).ret = some (-1) ∧
    (log_write ⟨tsC, false, true⟩ lgBound1C ['b']).log.truncate_at = 1 ∧
    (log_write ⟨tsC, false, true⟩ lgBound1C ['b']).log.cached_lines = 2 := by
  decide

/-- C2 witness: a successful truncating write at bound 1 lands back at the
bound. -/
theorem c2_success_within_bound_witness :
    (lgBound1C.truncate_at ≠ -1 ∧ (log_write ⟨tsC, true, true⟩ lgBound1C ['b']).ret = some 0) ∧
    (log_write ⟨tsC, true, true⟩ lgBound1C ['b']).log.cached_lines
      ≤ (log_write ⟨tsC, true, true⟩ lgBound1C ['b']).log.truncate_at :=
  ⟨⟨by decide, by decide⟩,
    c2_success_within_bound.1 ⟨tsC, true, true⟩ lgBound1C ['b'] (by decide) (by decide)⟩

/-- C3 (amended): `log_write` strips at most one trailing line break; for
every format string whose only line break, if any, is a single trailing
one — and a timestamp free of line breaks — the emitted record ends with
exactly one line terminator. -/
theorem c3_single_terminator (env : WriteEnv) (lg : LogT) (format : List Char)
    (hfile : lg.hasFile = true) (hlock : lg.lockHeld = false)
    (hts : '\n' ∉ env.ts) (hfmt : '\n' ∉ format.dropLast) :
    ∃ r, (log_write env lg format).appended = some r ∧ endsWithOneTerminator r := by
  have hstrip := stripFormat_no_newline hfmt
  have hbuf : '\n' ∉ (stripFormat format).take (BUFFER_SIZE - 1) :=
    fun h => hstrip (List.take_subset _ _ h)
  refine ⟨recordLine env.ts ((stripFormat format).take (BUFFER_SIZE - 1)), ?_,
    recordLine_one_term _ _ hts hbuf⟩
  unfold log_write stripFormat
  simp only [hfile, hlock, Bool.true_eq_false, Bool.false_eq_true, if_false]
  split_ifs <;> rfl

/-- C3 (counterexample): the format string `"hi\n\n"` ends in two line
breaks; `log_write` strips only one, so the emitted record ends in a
doubled terminator, refuting the claim for formats ending in two or more
line-break characters. -/
theorem c3_counterexample :
    (log_write ⟨tsC, true, true⟩ lgPlainC ('h' :: 'i' :: '\n' :: ['\n'])).appended
      = some (recordLine tsC ('h' :: 'i' :: ['\n'])) ∧
    ¬ endsWithOneTerminator (recordLine tsC ('h' :: 'i' :: ['\n'])) := by
  decide

/-- C3 witness: a format with a single trailing line break yields a record
with exactly one terminator. -/
theorem c3_single_terminator_witness :
    (lgPlainC.hasFile = true ∧ lgPlainC.lockHeld = false ∧
      '\n' ∉ (⟨tsC, true, true⟩ : WriteEnv).ts ∧
      '\n' ∉ ('h' :: 'e' :: 'y' :: ['\n']).dropLast) ∧
    ∃ r, (log_write ⟨tsC, true, true⟩ lgPlainC ('h' :: 'e' :: 'y' :: ['\n'])).appended
        = some r ∧ endsWithOneTerminator r :=
  ⟨⟨by decide, by decide, by decide, by decide⟩,
    c3_single_terminator ⟨tsC, true, true⟩ lgPlainC ('h' :: 'e' :: 'y' :: ['\n'])
      (by decide) (by decide) (by decide) (by decide)⟩

/-- C4 (amended): whenever a truncation pass — in `log_init` or in
`log_write` — opens its temporary file, the path it passes to `fopen` is
the fixed literal `tmp.log`, a name resolved in the process's working
directory and independent of the log file's own path; it lies in the log
file's directory only when the log path has no directory component. -/
theorem c4_fixed_tmp_name :
    (∀ (env : WriteEnv) (lg : LogT) (format : List Char),
        (log_write env lg format).tmpFopenPath = none ∨
        (log_write env lg format).tmpFopenPath = some tmpLogPath) ∧
    (∀ (env : InitEnv) (fn : List Char) (t : Int),
        (log_init env fn t).tmpFopenPath = none ∨
        (log_init env fn t).tmpFopenPath = some tmpLogPath) := by
  constructor
  · intro env lg format
    simp only [log_write]
    split_ifs <;> simp
  · intro env fn t
    simp only [log_init]
    split_ifs <;> simp

/-- C4 (counterexample): a write that truncates a log whose path is
`d/x.log` opens its temporary file at `tmp.log`, whose directory (the
working directory) differs from the log file's directory `d` — refuting
"in the same directory as the log file" for every log path. -/
theorem c4_counterexample :
    (log_write ⟨tsC, true, true⟩ lgDirC ['m']).tmpFopenPath = some tmpLogPath ∧
    specDirname tmpLogPath ≠ specDirname lgDirC.filename := by
  decide

/-- C5: a path at or over the maximum length makes `log_init` fail through
its `InvalidPath` branch with the out-parameter null, and the backing file
is never opened or created, since the length check precedes `fopen`.  (The
allocation that precedes the check is assumed to succeed.) -/
theorem c5_invalid_path (env : InitEnv) (fn : List Char) (t : Int)
    (hm : env.mallocOk = true) (hlen : MAX_FILENAME_LENGTH ≤ fn.length) :
    (log_init env fn t).ret = -1 ∧
    (log_init env fn t).err = some InitErr.invalidPath ∧
    (log_init env fn t).out = none ∧
    (log_init env fn t).fileOpened = false := by
  unfold log_init
  simp only [hm, Bool.true_eq_false, if_false]
  rw [if_pos hlen]
  exact ⟨rfl, rfl, rfl, rfl⟩

/-- C5 witness: a path of exactly the maximum length. -/
theorem c5_invalid_path_witness :
    (envAllOkC.mallocOk = true ∧ MAX_FILENAME_LENGTH ≤ fnLongC.length) ∧
    ((log_init envAllOkC fnLongC 3).ret = -1 ∧
      (log_init envAllOkC fnLongC 3).err = some InitErr.invalidPath ∧
      (log_init envAllOkC fnLongC 3).out = none ∧
      (log_init envAllOkC fnLongC 3).fileOpened = false) :=
  ⟨⟨by decide, by decide⟩, c5_invalid_path envAllOkC fnLongC 3 (by decide) (by decide)⟩

/-- C6: when the truncation pass inside `log_write` fails — the temporary
file cannot be created, or the main file cannot be reopened after the
swap — the call returns -1 with the lock released, and any subsequent
`log_write` on the resulting handle returns a result rather than blocking
on the mutex. -/
theorem c6_failed_truncation (env : WriteEnv) (lg : LogT) (format : List Char)
    (hfile : lg.hasFile = true) (hlock : lg.lockHeld = false)
    (ht : lg.truncate_at ≠ -1)
    (hc : (if lg.cached_lines = -1 then lg.cached_lines else lg.cached_lines + 1)
        > lg.truncate_at)
    (hfail : env.tmpOpenOk = false ∨ env.reopenOk = false) :
    (log_write env lg format).ret = some (-1) ∧
    (log_write env lg format).log.lockHeld = false ∧
    ∀ (env2 : WriteEnv) (format2 : List Char),
      ((log_write env2 (log_write env lg format).log format2).ret).isSome = true := by
  unfold log_write
  simp only [hfile, hlock, Bool.true_eq_false, Bool.false_eq_true, if_false]
  rw [if_pos ⟨ht, hc⟩]
  rcases hfail with hf | hf
  · rw [if_pos hf]
    exact ⟨rfl, rfl, fun env2 format2 => log_write_ret_isSome env2 _ format2 rfl⟩
  · by_cases htmp : env.tmpOpenOk = false
    · rw [if_pos htmp]
      exact ⟨rfl, rfl, fun env2 format2 => log_write_ret_isSome env2 _ format2 rfl⟩
    · rw [if_neg htmp, if_pos hf]
      exact ⟨rfl, rfl, fun env2 format2 => log_write_ret_isSome env2 _ format2 rfl⟩

/-- C6 witness: a write whose truncation pass fails to open the temporary
file. -/
theorem c6_failed_truncation_witness :
    (lgBound1C.hasFile = true ∧ lgBound1C.lockHeld = false ∧
      lgBound1C.truncate_at ≠ -1 ∧
      (if lgBound1C.cached_lines = -1 then lgBound1C.cached_lines
        else lgBound1C.cached_lines + 1) > lgBound1C.truncate_at ∧
      ((⟨tsC, false, true⟩ : WriteEnv).tmpOpenOk = false ∨
        (⟨tsC, false, true⟩ : WriteEnv).reopenOk = false)) ∧
    (log_write ⟨tsC, false, true⟩ lgBound1C ['b']).ret = some (-1) ∧
    (log_write ⟨tsC, false, true⟩ lgBound1C ['b']).log.lockHeld = false ∧
    ∀ (env2 : WriteEnv) (format2 : List Char),
      ((log_write env2 (log_write ⟨tsC, false, true⟩ lgBound1C ['b']).log format2).ret).isSome
        = true :=
  ⟨⟨by decide, by decide, by decide, by decide, Or.inl (by decide)⟩,
    c6_failed_truncation ⟨tsC, false, true⟩ lgBound1C ['b'] (by decide) (by decide)
      (by decide) (by decide) (Or.inl (by decide))⟩

/-- C7 (amended): `log_count_lines` scans the rewound file and returns the
number of `fgets` reads: for a file whose newline-terminated records each
fit one read and whose trailing unterminated fragment (if any) does too,
that is the number of newline-terminated records plus one if a nonempty
unterminated fragment follows them; `cached_lines` is not modified. -/
theorem c7_count_chunks (lg : LogT) (recs : List (List Char)) (tail : List Char)
    (hfile : lg.hasFile = true)
    (hcontent : lg.file = recs.flatten ++ tail)
    (hw : ∀ r ∈ recs, WfRec r) (ht1 : '\n' ∉ tail) (ht2 : tail.length ≤ BUFFER_SIZE - 1) :
    (log_count_lines lg).1
      = (specNewlineRecords lg.file : Int) + (if tail = [] then 0 else 1) ∧
    (log_count_lines lg).2.cached_lines = lg.cached_lines := by
  constructor
  · unfold log_count_lines
    simp only [hfile, Bool.true_eq_false, if_false]
    rw [hcontent, fgetsChunks_flatten_tail recs tail hw ht1 ht2,
      specNewlineRecords_flatten recs tail hw ht1]
    by_cases h0 : tail = []
    · simp [h0]
    · simp [h0]
  · unfold log_count_lines
    split_ifs <;> rfl

/-- C7 (counterexample): on a file holding the three characters `abc` —
no newline anywhere, hence zero newline-terminated records — the count
loop's final `fgets` still reads the fragment, and `log_count_lines`
returns 1, not the number of newline-terminated records physically
present. -/
theorem c7_counterexample :
    (log_count_lines lgAbcC).1 = 1 ∧ specNewlineRecords lgAbcC.file = 0 := by
  decide

/-- C7 witness: two records followed by an unterminated fragment. -/
theorem c7_count_chunks_witness :
    (lgMixC.hasFile = true ∧
      lgMixC.file = [('a' :: ['\n']), ('b' :: ['\n'])].flatten ++ ('x' :: 'y' :: ['z']) ∧
      (∀ r ∈ [('a' :: ['\n']), ('b' :: ['\n'])], WfRec r) ∧
      '\n' ∉ ('x' :: 'y' :: ['z']) ∧ ('x' :: 'y' :: ['z']).length ≤ BUFFER_SIZE - 1) ∧
    ((log_count_lines lgMixC).1
        = (specNewlineRecords lgMixC.file : Int)
          + (if ('x' :: 'y' :: ['z']) = [] then 0 else 1) ∧
      (log_count_lines lgMixC).2.cached_lines = lgMixC.cached_lines) :=
  ⟨⟨by decide, by decide, by decide, by decide, by decide⟩,
    c7_count_chunks lgMixC [('a' :: ['\n']), ('b' :: ['\n'])] ('x' :: 'y' :: ['z'])
      (by decide) (by decide) (by decide) (by decide) (by decide)⟩

/-- C8: `log_write` mutates the caller's format string in place — when the
format ends in a newline, `_remove_newline_from_end` overwrites it with a
NUL in the caller's buffer (truncating the C string by one character), and
the modification persists after the call returns. -/
theorem c8_format_mutated (env : WriteEnv) (lg : LogT) (format : List Char)
    (hfile : lg.hasFile = true) (hlock : lg.lockHeld = false)
    (hend : format.getLast? = some '\n') :
    (log_write env lg format).format = format.dropLast ∧
    (log_write env lg format).format ≠ format := by
  have he : if_end_with_newline format = true := if_end_with_newline_true hend
  have hrm := remove_newline_from_end_eq hend
  have hne : format ≠ [] := by rintro rfl; simp at hend
  have hmain : (log_write env lg format).format = format.dropLast := by
    unfold log_write
    simp only [hfile, hlock, Bool.true_eq_false, Bool.false_eq_true, if_false, he, if_true,
      hrm]
    split_ifs <;> rfl
  refine ⟨hmain, ?_⟩
  rw [hmain]
  intro hcontra
  have hlen : format.dropLast.length = format.length := by rw [hcontra]
  rw [List.length_dropLast] at hlen
  have hnz : format.length ≠ 0 := fun h => hne (List.length_eq_zero.1 h)
  omega

/-- C8 witness: a concrete format ending in a newline is left truncated in
the caller's buffer. -/
theorem c8_format_mutated_witness :
    (lgPlainC.hasFile = true ∧ lgPlainC.lockHeld = false ∧
      ('h' :: 'e' :: 'y' :: ['\n']).getLast? = some '\n') ∧
    ((log_write ⟨tsC, true, true⟩ lgPlainC ('h' :: 'e' :: 'y' :: ['\n'])).format
        = ('h' :: 'e' :: 'y' :: ['\n']).dropLast ∧
      (log_write ⟨tsC, true, true⟩ lgPlainC ('h' :: 'e' :: 'y' :: ['\n'])).format
        ≠ ('h' :: 'e' :: 'y' :: ['\n'])) :=
  ⟨⟨by decide, by decide, by decide⟩,
    c8_format_mutated ⟨tsC, true, true⟩ lgPlainC ('h' :: 'e' :: 'y' :: ['\n'])
      (by decide) (by decide) (by decide)⟩

set_option maxHeartbeats 1000000 in
/-- C9: whenever `log_init` returns -1 — allocation failure, oversized
path, failed `fopen`, failed mutex initialisation or lock, or a failed
startup truncation pass — the out-parameter has been set to null, so a
caller never receives a partially initialised handle. -/
theorem c9_out_null_on_failure (env : InitEnv) (fn : List Char) (t : Int)
    (h : (log_init env fn t).ret = -1) :
    (log_init env fn t).out = none := by
  simp only [log_init] at h ⊢
  split_ifs at h ⊢
  all_goals rfl

/-- C9 witness: initialisation over an over-threshold file whose reopen
after the swap fails. -/
theorem c9_out_null_on_failure_witness :
    (log_init envReopenFailC fnC 0).ret = -1 ∧
    (log_init envReopenFailC fnC 0).out = none :=
  ⟨by decide, c9_out_null_on_failure envReopenFailC fnC 0 (by decide)⟩

/-- C10: called on a null handle, `log_write` (`log.c:136`) and
`log_close` (`log.c:237`) check for null and return -1, while
`log_count_lines` (`log.c:220`) dereferences `log->file` unconditionally —
undefined behaviour, so its embedding is only defined for non-null
handles. -/
theorem c10_null_handle (env : WriteEnv) (format : List Char) :
    log_write_entry env none format = CEntry.returns (-1) ∧
    log_close_entry none = CEntry.returns (-1) ∧
    log_count_lines_entry none = CEntry.undefBehavior :=
  ⟨rfl, rfl, rfl⟩

end TidesLog
